import Mathlib

/-!
Verification of the bundle parsing and module-attribution engine of
react-native-bundle-insights.

Strings are modelled as lists of characters (`Str`); the JavaScript source
indexes strings by UTF-16 code unit, so the model is exact on BMP text.
Byte sizes are computed via `Char.utf8Size`, mirroring
`new TextEncoder().encode(s).length`.
-/

namespace BundleInsights

abbrev Str := List Char

/-- Convert a Lean string literal to the `Str` model. -/
def strL (s : String) : Str := s.toList

/-- UTF-8 byte length of a text span, mirroring
`new TextEncoder().encode(s).length` in the source. -/
def utf8Len (l : Str) : Nat := (l.map Char.utf8Size).sum

/-- Match `pat.isPrefixOf l`, returning the remainder on success; used to embed
regex literal tokens. -/
def dropLit (pat : Str) (l : Str) : Option Str :=
  if pat.isPrefixOf l then some (l.drop pat.length) else none

/-- JS `String.prototype.includes`: `pat` occurs as a contiguous substring. -/
def containsStr : Str → Str → Bool
  | [], pat => pat.isPrefixOf ([] : Str)
  | l@(_ :: rest), pat => pat.isPrefixOf l || containsStr rest pat

/-- JS `String.prototype.indexOf` for a nonempty pattern: index of the first
occurrence, `none` when absent (the source compares the result with -1). -/
def indexOfStr : Str → Str → Option Nat
  | l, pat =>
    if pat.isPrefixOf l then some 0
    else
      match l with
      | [] => none
      | _ :: rest => (indexOfStr rest pat).map (· + 1)

/-- The module-registration marker literal `__d(` (bundleParser.ts line 22). -/
def marker : Str := strL "__d("

/-- JS `bundleContent.split('__d(')`: non-overlapping, leftmost-first split.
The marker literal is matched as its four explicit characters so that the
recursion is structural. -/
def splitOnMarker : Str → List Str
  | [] => [[]]
  | '_' :: '_' :: 'd' :: '(' :: rest => [] :: splitOnMarker rest
  | c :: rest =>
    match splitOnMarker rest with
    | [] => [[c]]
    | h :: t => (c :: h) :: t

/-- State of the body-end scan in `BundleParser.findModuleEnd`
(bundleParser.ts lines 65-96): one unified signed depth over the three
delimiter classes, plus the string-literal flag and its opening quote. -/
structure ScanState where
  depth : Int
  inString : Bool
  stringChar : Char
deriving DecidableEq

/-- One character step of `findModuleEnd`'s loop body: first the quote
handling (lines 75-82), then, when not inside a string, the depth update
(lines 84-87).  `prev` is `part[i-1]` (`none` at the first character, where
the source compares against the empty string). -/
def scanChar (prev : Option Char) (c : Char) (s : ScanState) : ScanState :=
  let s1 :=
    if (c = '"' ∨ c = '\'') ∧ prev ≠ some '\\' then
      if s.inString = false then { s with inString := true, stringChar := c }
      else if c = s.stringChar then { s with inString := false }
      else s
    else s
  if s1.inString = false then
    let d1 := if c = '\x7b' ∨ c = '(' ∨ c = '[' then s1.depth + 1 else s1.depth
    let d2 := if c = '\x7d' ∨ c = ')' ∨ c = ']' then d1 - 1 else d1
    { s1 with depth := d2 }
  else s1

/-- The scan loop of `findModuleEnd`: returns `some i` at the first index
where (outside a string) the depth goes negative, `none` if the segment ends
first. -/
def findModuleEndAux : Str → Option Char → Nat → ScanState → Option Nat
  | [], _, _, _ => none
  | c :: rest, prev, i, s =>
    let s1 := scanChar prev c s
    if s1.inString = false ∧ s1.depth < 0 then some i
    else findModuleEndAux rest (some c) (i + 1) s1

/-- Initial scan state: `depth = 0`, `inString = false`; the source
initialises `stringChar` to the empty string, which is never read before
being overwritten, so any initial character is equivalent. -/
def scanInit : ScanState := ⟨0, false, ' '⟩

/-- The previous-character and scan state reached after processing a span,
used to reason about the scan loop compositionally. -/
def scanEnd : Str → Option Char → ScanState → Option Char × ScanState
  | [], prev, s => (prev, s)
  | c :: rest, prev, s => scanEnd rest (some c) (scanChar prev c s)

/-- Embeds `BundleParser.findModuleEnd`: index of the end of the module body, capped
by `Math.min(part.length, 10000)` when no unmatched closer is found. -/
def findModuleEnd (part : Str) : Nat :=
  match findModuleEndAux part none 0 scanInit with
  | some i => i
  | none => min part.length 10000

/-- JS `parseInt` restricted to the digit strings produced by the `(\d+)`
captures of the source's regexes. -/
def digitsToNat (ds : Str) : Nat :=
  ds.foldl (fun n c => n * 10 + (c.toNat - '0'.toNat)) 0

/-- The tail `\x7d,(\d+),` of the head regex, tried at the current position:
a closing brace, a comma, a greedy nonempty digit run, a comma. -/
def checkHeadEnd : Str → Option Nat
  | '\x7d' :: ',' :: r =>
    let ds := r.takeWhile Char.isDigit
    if ds.length = 0 then none
    else
      match r.drop ds.length with
      | ',' :: _ => some (digitsToNat ds)
      | _ => none
  | _ => none

/-- The lazy `([\s\S]*?)\x7d,(\d+),` part of the head regex: shortest body
(any characters) whose continuation matches `checkHeadEnd`. -/
def matchBodyId (l : Str) : Option (Str × Nat) :=
  match checkHeadEnd l with
  | some id => some ([], id)
  | none =>
    match l with
    | [] => none
    | c :: rest => (matchBodyId rest).map (fun p => (c :: p.1, p.2))

/-- The anchored head regex of `BundleParser.parse` (line 29):
`^function\([^)]*\)\x7b([\s\S]*?)\x7d,(\d+),` — returns the captured body and
declared numeric id. -/
def matchHead (part : Str) : Option (Str × Nat) :=
  match dropLit (strL "function(") part with
  | none => none
  | some r1 =>
    let params := r1.takeWhile (· ≠ ')')
    match r1.drop params.length with
    | ')' :: '\x7b' :: r3 => matchBodyId r3
    | _ => none

/-- The looser id pattern of `BundleParser.parseBySize` (line 204):
`^function\([^)]*\)\x7b[\s\S]*?\x7d,(\d+),`.  It is the same regex shape as
the head regex with only the id captured, so it matches exactly when
`matchHead` does. -/
def matchHeadId (part : Str) : Option Nat :=
  (matchHead part).map Prod.snd

/-! ### Provenance resolution: the lexical heuristic chain of
`BundleParser.extractModulePath` (lines 111-190). -/

/-- JS regex `.`: any character except the four line terminators. -/
def dotOk (c : Char) : Bool :=
  !(c = '\n' ∨ c = '\r' ∨ c.toNat = 0x2028 ∨ c.toNat = 0x2029)

/-- JS regex `\s` on the characters relevant here. -/
def jsSpace (c : Char) : Bool :=
  c = ' ' ∨ c = '\t' ∨ c = '\n' ∨ c = '\r' ∨ c = '\x0c' ∨ c = '\x0b' ∨
    c.toNat = 0xa0 ∨ c.toNat = 0xfeff

/-- Search an unanchored regex: try the matcher at every position, leftmost
first (the trailing empty position included). -/
def searchFirst (f : Str → Option Str) : Str → Option Str
  | [] => f []
  | l@(_ :: rest) =>
    match f l with
    | some a => some a
    | none => searchFirst f rest

/-- Pattern `['"]([^'"]+)['"]` at the current position: an opening quote of either
kind, a greedy nonempty run of non-quote characters, a closing quote of
either kind. -/
def quotedCapAt : Str → Option Str
  | q :: r =>
    if q = '\'' ∨ q = '"' then
      let cap := r.takeWhile (fun c => c ≠ '\'' ∧ c ≠ '"')
      if cap.length = 0 then none
      else
        match r.drop cap.length with
        | _ :: _ => some cap
        | [] => none
    else none
  | [] => none

/-- Pattern `['"]([^'"]+)['"]\)` at the current position (the argument shape shared
by strategies 2 and 3). -/
def quotedCapParenAt : Str → Option Str
  | q :: r =>
    if q = '\'' ∨ q = '"' then
      let cap := r.takeWhile (fun c => c ≠ '\'' ∧ c ≠ '"')
      if cap.length = 0 then none
      else
        match r.drop cap.length with
        | _ :: ')' :: _ => some cap
        | _ => none
    else none
  | [] => none

/-- Strategy 1 (line 114), anchored:
`^function\([^)]*\)\x7b.*?\x7d['"]([^'"]+)['"]` — the `\x7d['"]([^'"]+)['"]`
tail tried at the current position. -/
def s1End : Str → Option Str
  | '\x7d' :: r => quotedCapAt r
  | _ => none

/-- Strategy 1's lazy `.*?` part: extend one dot-matchable character at a
time until the tail matches. -/
def s1Body (l : Str) : Option Str :=
  match s1End l with
  | some cap => some cap
  | none =>
    match l with
    | [] => none
    | c :: rest => if dotOk c then s1Body rest else none

/-- Strategy 1 in full. -/
def matchS1 (body : Str) : Option Str :=
  match dropLit (strL "function(") body with
  | none => none
  | some r1 =>
    let params := r1.takeWhile (· ≠ ')')
    match r1.drop params.length with
    | ')' :: '\x7b' :: r3 => s1Body r3
    | _ => none

/-- Strategy 2 (line 120) at a position:
`module\.exports\s*=\s*require\(['"]([^'"]+)['"]\)`. -/
def matchS2At (l : Str) : Option Str :=
  match dropLit (strL "module.exports") l with
  | none => none
  | some r1 =>
    match r1.dropWhile jsSpace with
    | '=' :: r3 =>
      match dropLit (strL "require(") (r3.dropWhile jsSpace) with
      | none => none
      | some r5 => quotedCapParenAt r5
    | _ => none

/-- Strategy 3 (line 126) at a position:
`(?:require|import)\s*\(['"]([^'"]+)['"]\)`. -/
def matchS3At (l : Str) : Option Str :=
  let afterKw :=
    match dropLit (strL "require") l with
    | some r => some r
    | none => dropLit (strL "import") l
  match afterKw with
  | none => none
  | some r1 =>
    match r1.dropWhile jsSpace with
    | '(' :: r3 => quotedCapParenAt r3
    | _ => none

/-- Strategy 5 (line 146): one alternative `kw/…` tried at split point `k` of
the quoted span; the capture is the whole
`[^'"]*(?:node_modules|src|lib)\/[^'"]+` text. -/
def s5TryKw (span : Str) (k : Nat) (kw : Str) : Option Str :=
  match dropLit kw (span.drop k) with
  | none => none
  | some r2 =>
    match r2 with
    | '/' :: b => if b.length = 0 then none else some (span.take k ++ kw ++ '/' :: b)
    | _ => none

/-- Strategy 5 at split point `k`: the ordered alternation
`node_modules|src|lib`. -/
def s5CheckSplit (span : Str) (k : Nat) : Option Str :=
  match s5TryKw span k (strL "node_modules") with
  | some r => some r
  | none =>
    match s5TryKw span k (strL "src") with
    | some r => some r
    | none => s5TryKw span k (strL "lib")

/-- Strategy 5's greedy `[^'"]*`: longest split point first. -/
def s5Aux (span : Str) : Nat → Option Str
  | 0 => s5CheckSplit span 0
  | k + 1 =>
    match s5CheckSplit span (k + 1) with
    | some r => some r
    | none => s5Aux span k

/-- Strategy 5 at a position:
`['"]([^'"]*(?:node_modules|src|lib)\/[^'"]+)['"]`. -/
def matchS5At : Str → Option Str
  | q :: r =>
    if q = '\'' ∨ q = '"' then
      let span := r.takeWhile (fun c => c ≠ '\'' ∧ c ≠ '"')
      match r.drop span.length with
      | [] => none
      | _ :: _ => s5Aux span span.length
    else none
  | [] => none

/-- Strategy 6 (lines 152-159): the `['"]<lit>[^'"]*['"]` tail of one
fingerprint pattern, tried with the greedy `.*` having consumed `p`
characters; returns the consumed length from the position after the keyword. -/
def s6Check (r1 : Str) (lit : Str) (p : Nat) : Option Nat :=
  match r1.drop p with
  | q :: r2 =>
    if q = '\'' ∨ q = '"' then
      match dropLit lit r2 with
      | none => none
      | some r3 =>
        let run := r3.takeWhile (fun c => c ≠ '\'' ∧ c ≠ '"')
        match r3.drop run.length with
        | _ :: _ => some (p + 1 + lit.length + run.length + 1)
        | [] => none
    else none
  | [] => none

/-- Strategy 6's greedy `.*`: largest consumed length first. -/
def s6Aux (r1 : Str) (lit : Str) : Nat → Option Nat
  | 0 => s6Check r1 lit 0
  | p + 1 =>
    match s6Check r1 lit (p + 1) with
    | some n => some n
    | none => s6Aux r1 lit p

/-- One strategy-6 pattern `(?:require|import).*['"]<lit>[^'"]*['"]` at a
position; returns `match[0]`, the full matched text. -/
def matchS6At (lit : Str) (l : Str) : Option Str :=
  let go (kw : Str) : Option Str :=
    match dropLit kw l with
    | none => none
    | some r1 =>
      match s6Aux r1 lit (r1.takeWhile dotOk).length with
      | some n => some (l.take (kw.length + n))
      | none => none
  match go (strL "require") with
  | some m => some m
  | none => go (strL "import")

/-- The fingerprint literals of the strategy-6 pattern table, in source
order. -/
def s6Patterns : List Str :=
  [strL "@react-navigation", strL "@react-native", strL "lodash",
   strL "moment", strL "axios", strL "redux"]

/-- Strategy 6 in full: first pattern that matches somewhere and whose
`match[0]` contains a quoted specifier wins; the specifier's leading path
segment names the package. -/
def tryS6 : List Str → Str → Option Str
  | [], _ => none
  | lit :: rest, body =>
    match searchFirst (matchS6At lit) body with
    | some m0 =>
      match searchFirst quotedCapAt m0 with
      | some pkgPath =>
        some (strL "node_modules/" ++ pkgPath.takeWhile (· ≠ '/') ++ strL "/index.js")
      | none => tryS6 rest body
    | none => tryS6 rest body

/-- Character class `[a-zA-Z0-9]` for strategy 7. -/
def isAlnum (c : Char) : Bool :=
  ('a' ≤ c ∧ c ≤ 'z') ∨ ('A' ≤ c ∧ c ≤ 'Z') ∨ ('0' ≤ c ∧ c ≤ '9')

/-- Strategy 7 (line 176) at a position: `_([a-zA-Z0-9]+)\.default`. -/
def matchS7At : Str → Option Str
  | '_' :: r =>
    let cap := r.takeWhile isAlnum
    if cap.length = 0 then none
    else
      match dropLit (strL ".default") (r.drop cap.length) with
      | some _ => some cap
      | none => none
  | _ => none

/-- Decimal rendering of a module id, for the synthetic placeholder paths. -/
def natToStr (n : Nat) : Str := (Nat.repr n).toList

/-- Embeds `BundleParser.extractModulePath` (lines 111-190): the ordered heuristic
chain over the module body; total, always returns a path. -/
def extractModulePath (body : Str) (id : Nat) : Str :=
  match matchS1 body with
  | some p => p
  | none =>
  match searchFirst matchS2At body with
  | some p => p
  | none =>
  match searchFirst matchS3At body with
  | some reqPath =>
    if !(strL ".").isPrefixOf reqPath && !(strL "/").isPrefixOf reqPath then
      strL "node_modules/" ++ reqPath
    else reqPath
  | none =>
  if containsStr body (strL "React.createElement") ||
      containsStr body (strL "_react.default.createElement") then
    if containsStr body (strL "react-native") || containsStr body (strL "_reactNative") then
      strL "node_modules/react-native/index.js"
    else strL "src/component_" ++ natToStr id ++ strL ".js"
  else
  match searchFirst matchS5At body with
  | some p => p
  | none =>
  match tryS6 s6Patterns body with
  | some p => p
  | none =>
  match searchFirst matchS7At body with
  | some name => strL "node_modules/" ++ name ++ strL "/index.js"
  | none =>
  if body.length < 500 then strL "src/util_" ++ natToStr id ++ strL ".js"
  else if containsStr body (strL "StyleSheet") || containsStr body (strL "Platform") then
    strL "src/screen_" ++ natToStr id ++ strL ".js"
  else strL "module_" ++ natToStr id

/-! ### Position-Map Reader (`SourcemapParser`, sourcemapParser.ts). -/

/-- The shape of a parsed position-map document as the core reads it: only
the presence and contents of the `sources` array matter (the interface's
other fields are never consulted by the core).  A JSON document without a
`sources` field parses to `sources = none`. -/
structure SourceMapData where
  sources : Option (List Str)
deriving DecidableEq

/-- Embeds `SourcemapParser.load` (lines 22-30).  The file read and `JSON.parse`
happen outside the core; `parsed` is their outcome, `none` when reading or
parsing threw.  On failure the source logs and rethrows
`Failed to load sourcemap: <path>`; on success `sourcemapData` is set. -/
def loadSourcemap (sourcemapPath : Str) (parsed : Option SourceMapData) :
    Except Str (Option SourceMapData) :=
  match parsed with
  | some d => .ok (some d)
  | none => .error (strL "Failed to load sourcemap: " ++ sourcemapPath)

/-- Embeds `SourcemapParser.isLoaded` (line 68): `sourcemapData !== null`. -/
def isLoaded (st : Option SourceMapData) : Bool := st.isSome

/-- Embeds `SourcemapParser.getModulePath` (lines 35-41): `sources[index]`. -/
def getModulePath (st : Option SourceMapData) (index : Nat) : Option Str :=
  match st with
  | none => none
  | some d =>
    match d.sources with
    | none => none
    | some srcs => srcs.get? index

/-- Node `path.basename` for POSIX paths, as used by
`SourcemapParser.normalizeModulePath`. -/
def basename (p : Str) : Str :=
  if p.length = 0 then []
  else
    let t := (p.reverse.dropWhile (· = '/')).reverse
    if t.length = 0 then ['/']
    else (t.reverse.takeWhile (· ≠ '/')).reverse

/-- The ordered project-marker literals of `normalizeModulePath`
(line 122). -/
def projectMarkers : List Str :=
  [strL "/app/", strL "/components/", strL "/screens/", strL "/utils/"]

/-- The marker loop of `normalizeModulePath` (lines 123-128). -/
def tryMarkers : List Str → Str → Option Str
  | [], _ => none
  | m :: rest, p =>
    match indexOfStr p m with
    | some i => some (p.drop (i + 1))
    | none => tryMarkers rest p

/-- Embeds `SourcemapParser.normalizeModulePath` (lines 107-137). -/
def normalizeModulePath (p : Str) : Str :=
  match indexOfStr p (strL "node_modules/") with
  | some i => p.drop i
  | none =>
  match indexOfStr p (strL "/src/") with
  | some i => p.drop (i + 1)
  | none =>
  match tryMarkers projectMarkers p with
  | some r => r
  | none =>
  if !(p.any (· = '/')) || (strL "./").isPrefixOf p then p
  else basename p

/-! ### The bundle parser (`BundleParser.parse` / `parseBySize`). -/

/-- One parsed module record (`ModuleData` in types/index.ts; the optional
`package` field is never set by the parser). -/
structure ModuleData where
  id : Nat
  path : Str
  size : Nat
deriving DecidableEq

/-- The parser's optional source-map collaborator: the outer layer is
whether a `SourcemapParser` was passed to the constructor, the inner layer
its loaded state. -/
abbrev Smp := Option (Option SourceMapData)

/-- Embeds `BundleParser.getModulePathFromSourcemap` (lines 98-109): position-based
lookup, falsy (`undefined`/empty) entries rejected, result normalized. -/
def getModulePathFromSourcemap (smp : Smp) (idx : Nat) : Option Str :=
  match smp with
  | none => none
  | some st =>
    if isLoaded st = false then none
    else
      match getModulePath st idx with
      | none => none
      | some raw => if raw.length = 0 then none else some (normalizeModulePath raw)

/-- JS `a || b` for `a : string | undefined`: `b` when `a` is `undefined` or
the empty string. -/
def orElseStr (a : Option Str) (b : Str) : Str :=
  match a with
  | some s => if s.length = 0 then b else s
  | none => b

/-- The body of `parse`'s loop for one marker occurrence (lines 24-49):
`chunkIdx` is `i - 1`, the occurrence's zero-based position.  Yields a
record only when the structural head regex matches. -/
def parseOne (smp : Smp) (chunkIdx : Nat) (part : Str) : Option ModuleData :=
  match matchHead part with
  | none => none
  | some (body, id) =>
    let modulePath := orElseStr (getModulePathFromSourcemap smp chunkIdx)
      (extractModulePath body id)
    some ⟨id, modulePath, utf8Len (part.take (findModuleEnd part))⟩

/-- The body of `parseBySize`'s loop for one marker occurrence
(lines 199-221).  The split parts never contain the marker, so `indexOf`
yields -1 and the span is `Math.min(part.length, 10000)`; the `indexOf`
test is nevertheless embedded as written. -/
def parseBySizeOne (smp : Smp) (chunkIdx : Nat) (part : Str) : ModuleData :=
  let id := match matchHeadId part with
            | some i => i
            | none => chunkIdx
  let modulePath := orElseStr (getModulePathFromSourcemap smp chunkIdx)
    (strL "module_" ++ natToStr id)
  let endIndex :=
    min (match indexOfStr part marker with
         | some n => if n > 0 then n else part.length
         | none => part.length) 10000
  ⟨id, modulePath, utf8Len (part.take endIndex)⟩

/-- Embeds `BundleParser.parseBySize` (lines 195-225): one size-only record per
marker occurrence. -/
def parseBySize (bundle : Str) (smp : Smp) : List ModuleData :=
  (((splitOnMarker bundle).drop 1).enum).map (fun p => parseBySizeOne smp p.1 p.2)

/-- Embeds `BundleParser.parse` (lines 16-63): the primary structural pass over the
marker occurrences, falling back to `parseBySize` when it yields nothing.
(The `catch` branch also calls `parseBySize`; all embedded operations are
total, so only the zero-module path engages the fallback.) -/
def parse (bundle : Str) (smp : Smp) : List ModuleData :=
  let prim := (((splitOnMarker bundle).drop 1).enum).filterMap
    (fun p => parseOne smp p.1 p.2)
  if prim.length > 0 then prim else parseBySize bundle smp

/-! ### Package/Category Classifier (`extractPackageName`,
`categorizeModule`). -/

/-- The capture `(@[^/]+\/[^/]+|[^/]+)` of `extractPackageName`'s regex,
tried directly after a `node_modules/` occurrence.  The scoped alternative
`@[^/]+\/[^/]+` needs a nonempty segment after the `@` and a nonempty second
component; when it fails, the plain `[^/]+` alternative still matches the
nonempty non-slash run (backtracking cannot rescue the scoped branch since
shrinking a `[^/]+` never exposes a slash). -/
def captureAt (rest : Str) : Option Str :=
  let first := rest.takeWhile (· ≠ '/')
  if first.length = 0 then none
  else if 2 ≤ first.length ∧ rest.head? = some '@' then
    match rest.drop first.length with
    | '/' :: r3 =>
      let second := r3.takeWhile (· ≠ '/')
      if second.length = 0 then some first else some (first ++ '/' :: second)
    | _ => some first
  else some first

/-- Embeds `BundleParser.extractPackageName` (lines 274-280): leftmost match of
`node_modules\/(@[^/]+\/[^/]+|[^/]+)`, returning the capture. -/
def extractPackageName : Str → Option Str
  | [] => none
  | l@(_ :: rest) =>
    if (strL "node_modules/").isPrefixOf l then
      match captureAt (l.drop 13) with
      | some cap => some cap
      | none => extractPackageName rest
    else extractPackageName rest

/-- The three coarse categories of `BundleParser.categorizeModule`. -/
inductive Category where
  | user
  | nodeModules
  | reactNative
deriving DecidableEq

/-- Embeds `BundleParser.categorizeModule` (lines 285-293). -/
def categorizeModule (p : Str) : Category :=
  if containsStr p (strL "node_modules/react-native/") then .reactNative
  else if containsStr p (strL "node_modules/") then .nodeModules
  else .user

/-! ### Aggregation Engine (`DependencyAnalyzer`, dependencyAnalyzer.ts).

JavaScript `Map`s and `Set`s iterate in insertion order; they are modelled
as association lists / duplicate-free lists maintained in that order.
Percentages are IEEE doubles in the source; they are modelled in `ℚ`, with
`none` standing for the `NaN` produced by `0 / 0`. -/

/-- One package rollup (`PackageInfo` in types/index.ts).  The `version`
field is resolved from an on-disk manifest by `getPackageVersion`
(filesystem I/O outside the core) and is omitted here. -/
structure PackageInfo where
  name : Str
  size : Nat
  percentage : Option ℚ
  modules : List ModuleData
deriving DecidableEq

/-- One duplicate-installation finding (`DuplicatePackage` in
types/index.ts). -/
structure DuplicatePackage where
  name : Str
  versions : List Str
  totalWaste : ℚ
  paths : List Str
deriving DecidableEq

/-- Sum of `size` over a module list. -/
def sumSizes (mods : List ModuleData) : Nat := (mods.map (·.size)).sum

/-- Append a module to its package's group, JS-`Map` style: update the
existing key in place, else append a new key. -/
def addToGroups (acc : List (Str × List ModuleData)) (name : Str) (m : ModuleData) :
    List (Str × List ModuleData) :=
  match acc with
  | [] => [(name, [m])]
  | (k, g) :: rest =>
    if k = name then (k, g ++ [m]) :: rest
    else (k, g) :: addToGroups rest name m

/-- The grouping pass of `analyzePackages` (lines 57-65): modules with a
resolvable package name, grouped by it, in first-appearance order. -/
def packageMap (mods : List ModuleData) : List (Str × List ModuleData) :=
  mods.foldl (fun acc m =>
    match extractPackageName m.path with
    | some name => addToGroups acc name m
    | none => acc) []

/-- Insert into a descending-by-key list, keeping earlier elements first on
ties. -/
def insertDesc {α : Type} (key : α → ℚ) (x : α) : List α → List α
  | [] => [x]
  | y :: rest =>
    if key y ≤ key x then x :: y :: rest else y :: insertDesc key x rest

/-- Stable descending sort by a `ℚ` measure, mirroring the stable JS
`Array.prototype.sort` with comparator `(a, b) => key(b) - key(a)` (ES2019
requires the sort to be stable, and a stable sort's output is unique, so
insertion sort reproduces it exactly). -/
def sortDescBy {α : Type} (key : α → ℚ) (l : List α) : List α :=
  l.foldr (insertDesc key) []

/-- Embeds `DependencyAnalyzer.analyzePackages` (lines 53-86): per-package size and
percentage of the whole module list's size, sorted descending by size. -/
def analyzePackages (mods : List ModuleData) : List PackageInfo :=
  let totalSize := sumSizes mods
  let packages := (packageMap mods).map (fun p =>
    let size := sumSizes p.2
    { name := p.1, size := size,
      percentage :=
        if totalSize = 0 then none
        else some ((size : ℚ) / (totalSize : ℚ) * 100),
      modules := p.2 : PackageInfo })
  sortDescBy (fun pkg => (pkg.size : ℚ)) packages

/-- The length of the global-regex matcher
`node_modules\/@?[^/]+(?:\/[^/]+)?` at the current position (line 104).
The optional `@?` folds into the greedy `[^/]+` run. -/
def nmMatchLen (l : Str) : Option Nat :=
  match dropLit (strL "node_modules/") l with
  | none => none
  | some r =>
    let runA := r.takeWhile (· ≠ '/')
    if runA.length = 0 then none
    else
      match r.drop runA.length with
      | '/' :: r3 =>
        let runB := r3.takeWhile (· ≠ '/')
        if runB.length = 0 then some (13 + runA.length)
        else some (13 + runA.length + 1 + runB.length)
      | _ => some (13 + runA.length)

/-- The scan loop of the global regex match, with explicit fuel so that the
recursion is structural.  A successful match consumes at least 13
characters and a failure advances one character, so `l.length` fuel always
suffices. -/
def globalNMAux : Nat → Str → List Str
  | 0, _ => []
  | _ + 1, [] => []
  | fuel + 1, l@(_ :: rest) =>
    match nmMatchLen l with
    | some n => l.take n :: globalNMAux fuel (l.drop n)
    | none => globalNMAux fuel rest

/-- JS `path.match(/node_modules\/@?[^\/]+(?:\/[^\/]+)?/g)`: all
non-overlapping leftmost matches. -/
def globalNMMatches (l : Str) : List Str :=
  globalNMAux l.length l

/-- Largest offset, at most `bound`, at which `node_modules/` starts (the
greedy `.*` of `/(.*node_modules\/)/`, constrained to dot-matchable
characters). -/
def findLastNM (l : Str) : Nat → Option Nat
  | 0 => if (strL "node_modules/").isPrefixOf l then some 0 else none
  | k + 1 =>
    if (strL "node_modules/").isPrefixOf (l.drop (k + 1)) then some (k + 1)
    else findLastNM l k

/-- The capture of `path.match(/(.*node_modules\/)/)` (line 112): from the
leftmost feasible start, everything up to and including the last
`node_modules/` reachable through dot-matchable characters. -/
def prefixCapture : Str → Option Str
  | [] => none
  | l@(_ :: rest) =>
    match findLastNM l (l.takeWhile dotOk).length with
    | some k => some (l.take (k + 13))
    | none => prefixCapture rest

/-- The install-location computation inside `findDuplicates`'s module loop
(lines 102-116): last global match, `node_modules/` stripped, substring
check against the package name, then the greedy prefix joined with the
name. -/
def dupLocation (name : Str) (path : Str) : Option Str :=
  match globalNMMatches path with
  | [] => none
  | m :: ms =>
    let lastMatch := (m :: ms).getLastD []
    let pkgPath :=
      if (strL "node_modules/").isPrefixOf lastMatch then lastMatch.drop 13
      else lastMatch
    if containsStr pkgPath name then
      match prefixCapture path with
      | some pre => some (pre ++ name)
      | none => none
    else none

/-- Create the (possibly empty) location set for a package name, JS-`Map`
style (lines 98-100). -/
def ensureKey : List (Str × List Str) → Str → List (Str × List Str)
  | [], n => [(n, [])]
  | (k, v) :: rest, n =>
    if k = n then (k, v) :: rest else (k, v) :: ensureKey rest n

/-- Add a location to a package's set, JS-`Set` style: dedup, insertion
order. -/
def addLocTo : List (Str × List Str) → Str → Str → List (Str × List Str)
  | [], n, loc => [(n, [loc])]
  | (k, v) :: rest, n, loc =>
    if k = n then (k, if loc ∈ v then v else v ++ [loc]) :: rest
    else (k, v) :: addLocTo rest n loc

/-- One module's contribution to the `packagePaths` map (lines 95-119). -/
def dupStep (acc : List (Str × List Str)) (m : ModuleData) : List (Str × List Str) :=
  match extractPackageName m.path with
  | none => acc
  | some name =>
    let acc1 := ensureKey acc name
    match dupLocation name m.path with
    | some loc => addLocTo acc1 name loc
    | none => acc1

/-- JS `String.prototype.trim`. -/
def jsTrim (s : Str) : Str :=
  ((s.dropWhile jsSpace).reverse.dropWhile jsSpace).reverse

/-- Embeds `DependencyAnalyzer.findDuplicates` (lines 91-143): packages whose
location set has more than one nonempty entry, with
`waste = total / N * (N - 1)`, sorted descending by waste. -/
def findDuplicates (mods : List ModuleData) : List DuplicatePackage :=
  let packagePaths := mods.foldl dupStep []
  let dups := packagePaths.filterMap (fun p => show Option DuplicatePackage from
    let uniquePaths := p.2.filter (fun q => q.length != 0 && (jsTrim q).length != 0)
    if uniquePaths.length > 1 then
      let pmods := mods.filter (fun m => extractPackageName m.path == some p.1)
      let totalWaste : ℚ := (sumSizes pmods : ℚ)
      some { name := p.1, versions := uniquePaths,
             totalWaste := totalWaste / (uniquePaths.length : ℚ) *
               ((uniquePaths.length : ℚ) - 1),
             paths := uniquePaths }
    else none)
  sortDescBy (fun d => d.totalWaste) dups

/-- JS `new Map(modules.map(m => [m.path, m]))`: later entries overwrite
earlier ones in place. -/
def mapInsert (acc : List (Str × ModuleData)) (k : Str) (v : ModuleData) :
    List (Str × ModuleData) :=
  match acc with
  | [] => [(k, v)]
  | (k1, v1) :: rest =>
    if k1 = k then (k, v) :: rest else (k1, v1) :: mapInsert rest k v

/-- The path-keyed module lookup of the analysis result. -/
def buildModuleMap (mods : List ModuleData) : List (Str × ModuleData) :=
  mods.foldl (fun acc m => mapInsert acc m.path m) []

/-- The top-level analysis result (`BundleAnalysis` in types/index.ts).  The
`optimizations` field is the constant `[]` in `analyze` and is omitted; the
optional report-only fields are external. -/
structure BundleAnalysis where
  totalSize : Nat
  yourCodeSize : Nat
  nodeModulesSize : Nat
  reactNativeSize : Nat
  packages : List PackageInfo
  duplicates : List DuplicatePackage
  moduleMap : List (Str × ModuleData)
deriving DecidableEq

/-- The category accumulation of `analyze` (lines 21-34): a single pass
adding each module's size to exactly one of the three counters. -/
def categoryTotals (mods : List ModuleData) : Nat × Nat × Nat :=
  mods.foldl (fun t m =>
    match categorizeModule m.path with
    | .user => (t.1 + m.size, t.2.1, t.2.2)
    | .reactNative => (t.1, t.2.1, t.2.2 + m.size)
    | .nodeModules => (t.1, t.2.1 + m.size, t.2.2)) (0, 0, 0)

/-- Embeds `DependencyAnalyzer.analyze` (lines 16-48). -/
def analyze (mods : List ModuleData) : BundleAnalysis :=
  let t := categoryTotals mods
  { totalSize := t.1 + t.2.1 + t.2.2,
    yourCodeSize := t.1,
    nodeModulesSize := t.2.1,
    reactNativeSize := t.2.2,
    packages := analyzePackages mods,
    duplicates := findDuplicates mods,
    moduleMap := buildModuleMap mods }

/-- Characters that the body-end scan is entirely indifferent to: not a
quote and not a delimiter. -/
def neutralChar (c : Char) : Bool :=
  !(c = '"' ∨ c = '\'' ∨ c = '\x7b' ∨ c = '(' ∨ c = '[' ∨
    c = '\x7d' ∨ c = ')' ∨ c = ']')

/-! ### A specification-side scanner for claim C3.

Modelled from the spec, not from the source: §4.1 step 3 describes string
mode as "entering string mode on an unescaped quote character (single,
double, or backtick)".  These definitions repeat the source scanner with
the backtick added to the quote set, to be compared against `scanChar`. -/

/-- Modelled from the spec: one scan step with the backtick treated as a
quote character, as claim C3 states. -/
def specScanChar (prev : Option Char) (c : Char) (s : ScanState) : ScanState :=
  let s1 :=
    if (c = '"' ∨ c = '\'' ∨ c = '`') ∧ prev ≠ some '\\' then
      if s.inString = false then { s with inString := true, stringChar := c }
      else if c = s.stringChar then { s with inString := false }
      else s
    else s
  if s1.inString = false then
    let d1 := if c = '\x7b' ∨ c = '(' ∨ c = '[' then s1.depth + 1 else s1.depth
    let d2 := if c = '\x7d' ∨ c = ')' ∨ c = ']' then d1 - 1 else d1
    { s1 with depth := d2 }
  else s1

/-- Modelled from the spec: the scan loop with backtick strings honoured. -/
def specFindModuleEndAux : Str → Option Char → Nat → ScanState → Option Nat
  | [], _, _, _ => none
  | c :: rest, prev, i, s =>
    let s1 := specScanChar prev c s
    if s1.inString = false ∧ s1.depth < 0 then some i
    else specFindModuleEndAux rest (some c) (i + 1) s1

/-- Modelled from the spec: the body-end position with backtick strings
honoured. -/
def specFindModuleEnd (part : Str) : Nat :=
  match specFindModuleEndAux part none 0 scanInit with
  | some i => i
  | none => min part.length 10000

/-! ### Helper lemmas. -/

theorem utf8Len_append (a b : Str) : utf8Len (a ++ b) = utf8Len a + utf8Len b := by
  simp [utf8Len]

theorem utf8Len_replicate (n : Nat) (c : Char) :
    utf8Len (List.replicate n c) = n * c.utf8Size := by
  induction n with
  | zero => simp [utf8Len]
  | succ k ih =>
    simp only [List.replicate_succ, utf8Len, List.map_cons, List.sum_cons] at *
    rw [ih, Nat.succ_mul]
    omega

theorem marker_mem_of_isPrefixOf {l : Str} (h : marker.isPrefixOf l = true) :
    '_' ∈ l := by
  rw [List.isPrefixOf_iff_prefix] at h
  obtain ⟨t, ht⟩ := h
  have hl : l = '_' :: (strL "_d(" ++ t) := by rw [← ht]; rfl
  rw [hl]
  exact List.mem_cons_self _ _

theorem containsStr_marker_false {l : Str} (h : '_' ∉ l) :
    containsStr l marker = false := by
  induction l with
  | nil => simp [containsStr, marker, strL, List.isPrefixOf]
  | cons c rest ih =>
    simp only [containsStr, Bool.or_eq_false_iff]
    refine ⟨?_, ih (fun hm => h (List.mem_cons_of_mem c hm))⟩
    cases hp : marker.isPrefixOf (c :: rest) with
    | false => rfl
    | true => exact absurd (marker_mem_of_isPrefixOf hp) h

theorem splitOnMarker_cons_of_no_marker {c : Char} {rest : Str}
    (h : marker.isPrefixOf (c :: rest) = false) :
    splitOnMarker (c :: rest) =
      match splitOnMarker rest with
      | [] => [[c]]
      | hd :: td => (c :: hd) :: td := by
  rw [splitOnMarker.eq_def]
  split
  · rename_i heq
    exact absurd heq (by simp)
  · rename_i rest1 heq
    exfalso
    have hp : marker.isPrefixOf (c :: rest) = true := by
      rw [heq]
      simp [marker, strL, List.isPrefixOf]
    rw [h] at hp
    exact Bool.false_ne_true hp
  · rename_i c2 rest2 _hne heq
    injection heq with h1 h2
    subst h1
    subst h2
    rfl

theorem splitOnMarker_of_not_contains {l : Str} (h : containsStr l marker = false) :
    splitOnMarker l = [l] := by
  induction l with
  | nil => rfl
  | cons c rest ih =>
    simp only [containsStr, Bool.or_eq_false_iff] at h
    rw [splitOnMarker_cons_of_no_marker h.1, ih h.2]

theorem splitOnMarker_marker_append (l : Str) :
    splitOnMarker (marker ++ l) = [] :: splitOnMarker l := rfl

theorem scanChar_neutral {c : Char} (h : neutralChar c = true)
    (prev : Option Char) (s : ScanState) : scanChar prev c s = s := by
  simp only [neutralChar, Bool.not_eq_true', decide_eq_false_iff_not] at h
  push_neg at h
  obtain ⟨h1, h2, h3, h4, h5, h6, h7, h8⟩ := h
  simp only [scanChar, h1, h2, h3, h4, h5, h6, h7, h8, false_or, or_self,
    false_and, if_false, ite_self]

theorem findModuleEndAux_neutral {l : Str} (h : ∀ c ∈ l, neutralChar c = true) :
    ∀ (prev : Option Char) (i : Nat) (d : Int) (sc : Char), 0 ≤ d →
      findModuleEndAux l prev i ⟨d, false, sc⟩ = none := by
  induction l with
  | nil => intro prev i d sc _; rfl
  | cons c rest ih =>
    intro prev i d sc hd
    have hc : neutralChar c = true := h c (List.mem_cons_self c rest)
    simp only [findModuleEndAux, scanChar_neutral hc]
    rw [if_neg (by simp; omega)]
    exact ih (fun x hx => h x (List.mem_cons_of_mem c hx)) (some c) (i + 1) d sc hd

theorem findModuleEndAux_append (a : Str) :
    ∀ (b : Str) (prev : Option Char) (i : Nat) (s : ScanState),
      findModuleEndAux (a ++ b) prev i s =
        match findModuleEndAux a prev i s with
        | some j => some j
        | none =>
          findModuleEndAux b (scanEnd a prev s).1 (i + a.length) (scanEnd a prev s).2 := by
  induction a with
  | nil => intro b prev i s; simp [findModuleEndAux, scanEnd]
  | cons c rest ih =>
    intro b prev i s
    rw [List.cons_append, findModuleEndAux, findModuleEndAux]
    by_cases hc : (scanChar prev c s).inString = false ∧ (scanChar prev c s).depth < 0
    · rw [if_pos hc, if_pos hc]
    · rw [if_neg hc, if_neg hc, ih]
      rw [scanEnd]
      have hl : i + (c :: rest).length = (i + 1) + rest.length := by
        simp [List.length_cons]
        omega
      rw [hl]

theorem indexOfStr_isPrefixOf {l pat : Str} {i : Nat}
    (h : indexOfStr l pat = some i) : pat.isPrefixOf (l.drop i) = true := by
  induction l generalizing i with
  | nil =>
    rw [indexOfStr] at h
    split at h
    · rename_i hp
      simp only [Option.some.injEq] at h
      subst h
      exact hp
    · exact absurd h (by simp)
  | cons c rest ih =>
    rw [indexOfStr] at h
    split at h
    · rename_i hp
      simp only [Option.some.injEq] at h
      subst h
      exact hp
    · simp only [Option.map_eq_some'] at h
      obtain ⟨j, hj, hij⟩ := h
      subst hij
      exact ih hj

theorem dropWhile_head_false {q : Char → Bool} {l : Str} {c : Char} {r : Str}
    (h : l.dropWhile q = c :: r) : q c = false := by
  induction l with
  | nil => exact absurd h (by simp)
  | cons a rest ih =>
    rw [List.dropWhile_cons] at h
    split at h
    · exact ih h
    · rename_i ha
      injection h with h1 _
      subst h1
      exact Bool.of_not_eq_true ha

theorem basename_ne_nil {p : Str} (hp : p ≠ []) : basename p ≠ [] := by
  unfold basename
  rw [if_neg (by simpa using hp)]
  set t := (p.reverse.dropWhile (· = '/')).reverse with ht
  by_cases h0 : t.length = 0
  · rw [if_pos h0]
    simp
  · rw [if_neg h0]
    cases hc : t.reverse with
    | nil =>
      exfalso
      apply h0
      have : t = [] := by simpa using congrArg List.reverse hc
      simp [this]
    | cons c r =>
      have hq : (fun x => decide (x ≠ '/')) c = true := by
        have hdw : p.reverse.dropWhile (· = '/') = c :: r := by
          rw [ht] at hc
          simpa using hc
        have := dropWhile_head_false hdw
        simp_all
      have hq2 : ¬c = '/' := by simpa using hq
      simp [List.takeWhile_cons, hq2]

theorem tryMarkers_ne_nil {ms : List Str} {p : Str} {r : Str}
    (hm : ∀ m ∈ ms, 2 ≤ m.length)
    (h : tryMarkers ms p = some r) : r ≠ [] := by
  induction ms with
  | nil => exact absurd h (by simp [tryMarkers])
  | cons m rest ih =>
    rw [tryMarkers] at h
    cases hi : indexOfStr p m with
    | some i =>
      rw [hi] at h
      simp only [Option.some.injEq] at h
      subst h
      have hpre := indexOfStr_isPrefixOf hi
      rw [List.isPrefixOf_iff_prefix] at hpre
      have hlen : m.length ≤ (p.drop i).length := hpre.length_le
      have hm2 : 2 ≤ m.length := hm m (List.mem_cons_self m rest)
      rw [List.length_drop] at hlen
      intro hnil
      have hl := congrArg List.length hnil
      simp only [List.length_drop, List.length_nil] at hl
      omega
    | none =>
      rw [hi] at h
      exact ih (fun x hx => hm x (List.mem_cons_of_mem m hx)) h

theorem normalizeModulePath_ne_nil {p : Str} (hp : p ≠ []) :
    normalizeModulePath p ≠ [] := by
  unfold normalizeModulePath
  cases h1 : indexOfStr p (strL "node_modules/") with
  | some i =>
    have hpre := indexOfStr_isPrefixOf h1
    rw [List.isPrefixOf_iff_prefix] at hpre
    have hlen : (strL "node_modules/").length ≤ (p.drop i).length := hpre.length_le
    have h13 : (strL "node_modules/").length = 13 := by decide
    rw [h13, List.length_drop] at hlen
    dsimp only
    intro hnil
    have hl := congrArg List.length hnil
    simp only [List.length_drop, List.length_nil] at hl
    omega
  | none =>
    cases h2 : indexOfStr p (strL "/src/") with
    | some i =>
      have hpre := indexOfStr_isPrefixOf h2
      rw [List.isPrefixOf_iff_prefix] at hpre
      have hlen : (strL "/src/").length ≤ (p.drop i).length := hpre.length_le
      have h5 : (strL "/src/").length = 5 := by decide
      rw [h5, List.length_drop] at hlen
      dsimp only
      intro hnil
      have hl := congrArg List.length hnil
      simp only [List.length_drop, List.length_nil] at hl
      omega
    | none =>
      cases h3 : tryMarkers projectMarkers p with
      | some r =>
        exact tryMarkers_ne_nil (by decide) h3
      | none =>
        dsimp only
        split
        · exact hp
        · exact basename_ne_nil hp

/-! ### Claim C5: size conservation. -/

theorem categoryTotals_aux (mods : List ModuleData) :
    ∀ t : Nat × Nat × Nat,
      (mods.foldl (fun t m =>
        match categorizeModule m.path with
        | .user => (t.1 + m.size, t.2.1, t.2.2)
        | .reactNative => (t.1, t.2.1, t.2.2 + m.size)
        | .nodeModules => (t.1, t.2.1 + m.size, t.2.2)) t).1 +
      (mods.foldl (fun t m =>
        match categorizeModule m.path with
        | .user => (t.1 + m.size, t.2.1, t.2.2)
        | .reactNative => (t.1, t.2.1, t.2.2 + m.size)
        | .nodeModules => (t.1, t.2.1 + m.size, t.2.2)) t).2.1 +
      (mods.foldl (fun t m =>
        match categorizeModule m.path with
        | .user => (t.1 + m.size, t.2.1, t.2.2)
        | .reactNative => (t.1, t.2.1, t.2.2 + m.size)
        | .nodeModules => (t.1, t.2.1 + m.size, t.2.2)) t).2.2 =
      t.1 + t.2.1 + t.2.2 + sumSizes mods := by
  induction mods with
  | nil => intro t; simp [sumSizes]
  | cons m rest ih =>
    intro t
    rw [List.foldl_cons]
    have hs : sumSizes (m :: rest) = m.size + sumSizes rest := by
      simp [sumSizes]
    rw [hs]
    cases categorizeModule m.path <;> (rw [ih]; simp; omega)

/-- Claim C5: for every module record list, `totalSize` equals the sum of the
three category totals, which equals the sum of `size` over all records —
every module is counted in exactly one category. -/
theorem c5_size_conservation (mods : List ModuleData) :
    (analyze mods).totalSize =
      (analyze mods).yourCodeSize + (analyze mods).nodeModulesSize +
        (analyze mods).reactNativeSize ∧
    (analyze mods).totalSize = sumSizes mods := by
  constructor
  · rfl
  · show (categoryTotals mods).1 + (categoryTotals mods).2.1 + (categoryTotals mods).2.2
      = sumSizes mods
    have := categoryTotals_aux mods (0, 0, 0)
    simpa [categoryTotals] using this

/-! ### Claim C7: garbage bundles and empty aggregation. -/

/-- Claim C7: when the marker literal never appears, parsing yields zero
modules and the analysis is the well-formed all-zero result; the embedded
core is total, so no error can propagate for any string input. -/
theorem c7_garbage_bundle (bundle : Str) (smp : Smp)
    (h : containsStr bundle marker = false) :
    parse bundle smp = [] ∧
    analyze (parse bundle smp) =
      { totalSize := 0, yourCodeSize := 0, nodeModulesSize := 0,
        reactNativeSize := 0, packages := [], duplicates := [], moduleMap := [] } := by
  have hs : splitOnMarker bundle = [bundle] := splitOnMarker_of_not_contains h
  have hp : parse bundle smp = [] := by
    simp [parse, parseBySize, hs]
  refine ⟨hp, ?_⟩
  rw [hp]
  rfl

/-- Witness for C7 at the concrete garbage bundle `hello world`. -/
theorem c7_witness :
    parse (strL "hello world") none = [] ∧
    analyze (parse (strL "hello world") none) =
      { totalSize := 0, yourCodeSize := 0, nodeModulesSize := 0,
        reactNativeSize := 0, packages := [], duplicates := [], moduleMap := [] } :=
  c7_garbage_bundle (strL "hello world") none (by decide)

/-! ### Claim C6: malformed position map. -/

/-- Counterexample to claim C6 as stated: loading a position-map text that is
not valid JSON raises an error out of the load operation (the source
rethrows after logging), and loading valid JSON that lacks `sources` leaves
the reader in the loaded state, not the not-loaded state. -/
theorem c6_counterexample :
    loadSourcemap (strL "bundle.map") none =
      .error (strL "Failed to load sourcemap: bundle.map") ∧
    loadSourcemap (strL "bundle.map") (some ⟨none⟩) = .ok (some ⟨none⟩) ∧
    isLoaded (some (⟨none⟩ : SourceMapData)) = true := by
  exact ⟨rfl, rfl, rfl⟩

/-- Claim C6 as amended: `load` raises for unparsable map text (the CLI
collaborator catches the error, leaving the parser unloaded); for valid JSON
without a `sources` field the reader reports loaded but every positional
lookup returns nothing, so provenance resolution proceeds with the lexical
heuristic chain in both cases. -/
theorem c6_amended (sourcemapPath : Str) (d : SourceMapData)
    (hd : d.sources = none) :
    loadSourcemap sourcemapPath none =
      .error (strL "Failed to load sourcemap: " ++ sourcemapPath) ∧
    isLoaded (some d) = true ∧
    (∀ idx, getModulePath (some d) idx = none) ∧
    (∀ chunk part body id, matchHead part = some (body, id) →
      parseOne (some (some d)) chunk part =
        some ⟨id, extractModulePath body id, utf8Len (part.take (findModuleEnd part))⟩) := by
  refine ⟨rfl, rfl, ?_, ?_⟩
  · intro idx
    simp [getModulePath, hd]
  · intro chunk part body id hm
    simp [parseOne, hm, getModulePathFromSourcemap, isLoaded, getModulePath, hd, orElseStr]

/-! ### Claim C1: position-map lookup overrides the lexical heuristics. -/

/-- Counterexample to claim C1 as stated: an empty-string entry in `sources`
is an entry at the module's chunk index, yet the source rejects it as falsy
and resolves through the lexical heuristics instead of returning the
normalized entry.  Here `sources = [""]`, and the single module's path is
the heuristic fallback `src/util_7.js`, not `normalizeModulePath "" = ""`. -/
theorem c1_counterexample :
    parse (strL "__d(function()\x7b\x7d,7,[]);") (some (some ⟨some [[]]⟩)) =
      [⟨7, strL "src/util_7.js", 17⟩] ∧
    normalizeModulePath [] = [] ∧
    strL "src/util_7.js" ≠ normalizeModulePath [] := by
  refine ⟨by decide, by decide, by decide⟩

/-- Claim C1 as amended: for every loaded position map whose `sources` array
has a nonempty entry at chunk index `chunkIdx`, the module parsed at that
marker occurrence resolves to the normalized entry — for every module body,
so the lookup overrides every later lexical heuristic in the chain. -/
theorem c1_amended (sources : List Str) (chunkIdx : Nat) (part body : Str)
    (id : Nat) (path : Str)
    (hm : matchHead part = some (body, id))
    (hs : sources.get? chunkIdx = some path) (hne : path ≠ []) :
    parseOne (some (some ⟨some sources⟩)) chunkIdx part =
      some ⟨id, normalizeModulePath path,
        utf8Len (part.take (findModuleEnd part))⟩ := by
  have hlen : ¬(path.length = 0) := by simpa using hne
  have hnorm : ¬((normalizeModulePath path).length = 0) := by
    simpa using normalizeModulePath_ne_nil hne
  simp only [parseOne, hm, getModulePathFromSourcemap, isLoaded, getModulePath,
    hs, orElseStr, Option.isSome_some, Bool.true_eq_false, if_false, hlen,
    if_neg hlen, if_neg hnorm]

/-- Witness for C1 (amended) at a one-entry map and a concrete segment. -/
theorem c1_witness :
    parseOne (some (some ⟨some [strL "App.js"]⟩)) 0 (strL "function()\x7b\x7d,7,[]);") =
      some ⟨7, normalizeModulePath (strL "App.js"),
        utf8Len ((strL "function()\x7b\x7d,7,[]);").take
          (findModuleEnd (strL "function()\x7b\x7d,7,[]);")))⟩ :=
  c1_amended [strL "App.js"] 0 (strL "function()\x7b\x7d,7,[]);") [] 7
    (strL "App.js") (by decide) (by decide) (by decide)

/-! ### Claim C2: per-segment size-only fallback. -/

/-- Counterexample to claim C2 as stated: in a bundle with two marker
occurrences where the first segment matches the structural head and the
second does not, the primary pass keeps only the matching segment and the
non-conforming occurrence yields no record at all — the fallback runs only
when the whole primary pass is empty. -/
theorem c2_counterexample :
    ((splitOnMarker (strL "__d(function()\x7b\x7d,1,[]);__d(junk")).drop 1).length = 2 ∧
    matchHead (strL "junk") = none ∧
    (parse (strL "__d(function()\x7b\x7d,1,[]);__d(junk") none).length = 1 := by
  refine ⟨by decide, by decide, by decide⟩

/-- Claim C2 as amended: only when no marker segment matches the structural
head does the parser fall back, and then in one whole-bundle size-only pass
that yields a record for every marker occurrence (id from the numeric
pattern when extractable, else the occurrence's sequential position). -/
theorem c2_amended (bundle : Str) (smp : Smp)
    (h : ∀ part ∈ (splitOnMarker bundle).drop 1, matchHead part = none) :
    parse bundle smp = parseBySize bundle smp ∧
    parse bundle smp =
      ((splitOnMarker bundle).drop 1).enum.map (fun p => parseBySizeOne smp p.1 p.2) ∧
    (parse bundle smp).length = ((splitOnMarker bundle).drop 1).length := by
  have hnil : (((splitOnMarker bundle).drop 1).enum).filterMap
      (fun p => parseOne smp p.1 p.2) = [] := by
    rw [List.filterMap_eq_nil_iff]
    intro p hp
    have hmem : p.2 ∈ (splitOnMarker bundle).drop 1 := by
      obtain ⟨i, x⟩ := p
      have := List.mem_enum hp
      rw [this.2]
      exact List.getElem_mem this.1
    simp [parseOne, h p.2 hmem]
  have hps : parse bundle smp = parseBySize bundle smp := by
    simp only [parse]
    rw [hnil]
    simp
  refine ⟨hps, by rw [hps]; rfl, ?_⟩
  rw [hps]
  simp [parseBySize]

/-- Witness for C2 (amended) at a bundle whose single occurrence fails the
structural match. -/
theorem c2_witness :
    parse (strL "__d(junk") none = parseBySize (strL "__d(junk") none ∧
    parse (strL "__d(junk") none =
      ((splitOnMarker (strL "__d(junk")).drop 1).enum.map
        (fun p => parseBySizeOne none p.1 p.2) ∧
    (parse (strL "__d(junk") none).length =
      ((splitOnMarker (strL "__d(junk")).drop 1).length :=
  c2_amended (strL "__d(junk") none (by decide)

/-! ### Claim C3: the body-end scan's string handling. -/

/-- Counterexample to claim C3 as stated: the source scanner recognises only
single and double quotes, not backticks.  In the segment
`function()\x7b\x7d` followed by a backtick string holding a closing brace,
the scan terminates at index 13 — the brace inside the backtick string —
whereas the scanner the claim describes (backticks included) finds no
unmatched closer and caps at the segment length 15. -/
theorem c3_counterexample :
    findModuleEnd (strL "function()\x7b\x7d`\x7d`") = 13 ∧
    (strL "function()\x7b\x7d`\x7d`").get? 13 = some '\x7d' ∧
    specFindModuleEnd (strL "function()\x7b\x7d`\x7d`") = 15 ∧
    (13 : Nat) ≠ 15 := by
  refine ⟨by decide, by decide, by decide, by decide⟩

theorem quote_not_delim {c : Char} (h : c = '"' ∨ c = '\'') :
    ¬(c = '\x7b' ∨ c = '(' ∨ c = '[') ∧ ¬(c = '\x7d' ∨ c = ')' ∨ c = ']') := by
  rcases h with h | h <;> subst h <;> exact ⟨by decide, by decide⟩

/-- Behaviour of one scan step from an in-string state: the state is
unchanged unless the character is the unescaped matching quote, which only
clears the string flag. -/
theorem scanChar_inString (prev : Option Char) (c : Char) (d : Int) (sc : Char) :
    scanChar prev c ⟨d, true, sc⟩ =
      if (c = '"' ∨ c = '\'') ∧ prev ≠ some '\\' ∧ c = sc then ⟨d, false, sc⟩
      else ⟨d, true, sc⟩ := by
  by_cases h1 : (c = '"' ∨ c = '\'') ∧ prev ≠ some '\\'
  · obtain ⟨hc, hp⟩ := h1
    by_cases h2 : c = sc
    · subst h2
      rcases hc with hc | hc <;> subst hc <;> simp [scanChar, hp]
    · rcases hc with hc | hc <;> subst hc <;> simp [scanChar, hp, h2]
  · have h3 : ¬((c = '"' ∨ c = '\'') ∧ prev ≠ some '\\' ∧ c = sc) :=
      fun hc => h1 ⟨hc.1, hc.2.1⟩
    simp [scanChar, h1, h3]

/-- Behaviour of one scan step from an out-of-string state: an unescaped
quote enters string mode without touching the depth; any other character
only applies the delimiter depth update. -/
theorem scanChar_notInString (prev : Option Char) (c : Char) (d : Int) (sc : Char) :
    scanChar prev c ⟨d, false, sc⟩ =
      if (c = '"' ∨ c = '\'') ∧ prev ≠ some '\\' then ⟨d, true, c⟩
      else ⟨(if c = '\x7d' ∨ c = ')' ∨ c = ']'
             then (if c = '\x7b' ∨ c = '(' ∨ c = '[' then d + 1 else d) - 1
             else (if c = '\x7b' ∨ c = '(' ∨ c = '[' then d + 1 else d)),
            false, sc⟩ := by
  by_cases h1 : (c = '"' ∨ c = '\'') ∧ prev ≠ some '\\'
  · obtain ⟨hc, hp⟩ := h1
    rcases hc with hc | hc <;> subst hc <;> simp [scanChar, hp]
  · simp [scanChar, h1]

/-- Claim C3 as amended: in the source scanner, string mode is entered on an
unescaped single or double quote only (a backtick never enters string mode),
is exited exactly on the matching unescaped quote, and the depth is
unchanged by any character processed while in string mode. -/
theorem c3_amended (prev : Option Char) (c : Char) (s : ScanState) :
    (s.inString = true → (scanChar prev c s).depth = s.depth) ∧
    (s.inString = false →
      ((scanChar prev c s).inString = true ↔
        ((c = '"' ∨ c = '\'') ∧ prev ≠ some '\\'))) ∧
    (s.inString = true → (s.stringChar = '"' ∨ s.stringChar = '\'') →
      ((scanChar prev c s).inString = false ↔
        (c = s.stringChar ∧ prev ≠ some '\\'))) := by
  obtain ⟨d, ins, sc⟩ := s
  cases ins with
  | false =>
    refine ⟨fun h => absurd h (by simp), fun _ => ?_, fun h => absurd h (by simp)⟩
    rw [scanChar_notInString]
    by_cases h1 : (c = '"' ∨ c = '\'') ∧ prev ≠ some '\\'
    · rw [if_pos h1]
      simpa using h1
    · rw [if_neg h1]
      simpa using h1
  | true =>
    refine ⟨fun _ => ?_, fun h => absurd h (by simp), fun _ hsc => ?_⟩
    · rw [scanChar_inString]
      by_cases h1 : (c = '"' ∨ c = '\'') ∧ prev ≠ some '\\' ∧ c = sc
      · rw [if_pos h1]
      · rw [if_neg h1]
    · rw [scanChar_inString]
      by_cases h1 : (c = '"' ∨ c = '\'') ∧ prev ≠ some '\\' ∧ c = sc
      · rw [if_pos h1]
        exact iff_of_true rfl ⟨h1.2.2, h1.2.1⟩
      · rw [if_neg h1]
        exact iff_of_false (by simp)
          (fun hcon => h1 ⟨hcon.1.symm ▸ hsc, hcon.2, hcon.1⟩)

/-- Witness for C3 (amended): a closing brace read while inside a
double-quoted string leaves the depth untouched. -/
theorem c3_witness :
    (scanChar (some 'a') '\x7d' ⟨2, true, '"'⟩).depth = 2 :=
  (c3_amended (some 'a') '\x7d' ⟨2, true, '"'⟩).1 rfl

/-! ### Claim C9: percentage bounds. -/

theorem mem_insertDesc {α : Type} (key : α → ℚ) (x a : α) (l : List α) :
    a ∈ insertDesc key x l ↔ a = x ∨ a ∈ l := by
  induction l with
  | nil => simp [insertDesc]
  | cons y rest ih =>
    rw [insertDesc]
    split
    · simp [List.mem_cons]
    · simp only [List.mem_cons, ih]
      tauto

theorem mem_sortDescBy {α : Type} (key : α → ℚ) (l : List α) (a : α) :
    a ∈ sortDescBy key l ↔ a ∈ l := by
  induction l with
  | nil => simp [sortDescBy]
  | cons x rest ih =>
    simp only [sortDescBy, List.foldr_cons] at *
    rw [mem_insertDesc, ih, List.mem_cons]

theorem addToGroups_sublist {pre : List ModuleData} (name : Str) (m : ModuleData) :
    ∀ acc : List (Str × List ModuleData),
      (∀ p ∈ acc, p.2.Sublist pre) →
      ∀ p ∈ addToGroups acc name m, p.2.Sublist (pre ++ [m]) := by
  intro acc
  induction acc with
  | nil =>
    intro _ p hp
    simp only [addToGroups, List.mem_singleton] at hp
    subst hp
    exact List.sublist_append_right pre [m]
  | cons kg rest ih =>
    obtain ⟨k, g⟩ := kg
    intro hacc p hp
    rw [addToGroups] at hp
    by_cases hk : k = name
    · rw [if_pos hk] at hp
      rcases List.mem_cons.mp hp with hp | hp
      · subst hp
        exact List.Sublist.append
          (hacc (k, g) (List.mem_cons_self _ _)) (List.Sublist.refl [m])
      · exact (hacc p (List.mem_cons_of_mem _ hp)).trans
          (List.sublist_append_left pre [m])
    · rw [if_neg hk] at hp
      rcases List.mem_cons.mp hp with hp | hp
      · subst hp
        exact (hacc (k, g) (List.mem_cons_self _ _)).trans
          (List.sublist_append_left pre [m])
      · exact ih (fun q hq => hacc q (List.mem_cons_of_mem _ hq)) p hp

theorem packageMap_step_sublist :
    ∀ (mods : List ModuleData) (acc : List (Str × List ModuleData))
      (pre : List ModuleData),
      (∀ p ∈ acc, p.2.Sublist pre) →
      ∀ p ∈ mods.foldl (fun acc m =>
          match extractPackageName m.path with
          | some name => addToGroups acc name m
          | none => acc) acc,
        p.2.Sublist (pre ++ mods) := by
  intro mods
  induction mods with
  | nil =>
    intro acc pre hacc p hp
    simpa using hacc p hp
  | cons m rest ih =>
    intro acc pre hacc p hp
    rw [List.foldl_cons] at hp
    have hstep : ∀ q ∈ (match extractPackageName m.path with
        | some name => addToGroups acc name m
        | none => acc), q.2.Sublist (pre ++ [m]) := by
      cases hx : extractPackageName m.path with
      | some name => exact addToGroups_sublist name m acc hacc
      | none =>
        intro q hq
        exact (hacc q hq).trans (List.sublist_append_left _ _)
    have hres := ih _ (pre ++ [m]) hstep p hp
    rwa [List.append_assoc, List.singleton_append] at hres

theorem packageMap_sublist {mods : List ModuleData} {p : Str × List ModuleData}
    (hp : p ∈ packageMap mods) : p.2.Sublist mods := by
  have := packageMap_step_sublist mods [] [] (by simp) p hp
  simpa using this

theorem sumSizes_sublist {l1 l2 : List ModuleData} (h : l1.Sublist l2) :
    sumSizes l1 ≤ sumSizes l2 :=
  List.Sublist.sum_le_sum (h.map _) (fun a _ => Nat.zero_le a)

/-- Counterexample to claim C9 as stated: a packaged module of size zero
makes the total zero, and the percentage `(0 / 0) * 100` is the IEEE `NaN`
(modelled as `none`), which lies in no interval at all. -/
theorem c9_counterexample :
    (analyzePackages [⟨0, strL "node_modules/a/x.js", 0⟩]).map
      (fun p => p.percentage) = [none] := by
  decide

/-- Claim C9 as amended: whenever the module list's total size is nonzero,
every package aggregate's percentage is a defined rational in [0, 100],
computed against the sum of all module sizes. -/
theorem c9_amended (mods : List ModuleData) (htot : sumSizes mods ≠ 0) :
    ∀ pkg ∈ analyzePackages mods, ∃ q : ℚ,
      pkg.percentage = some q ∧ 0 ≤ q ∧ q ≤ 100 := by
  intro pkg hpkg
  simp only [analyzePackages] at hpkg
  rw [mem_sortDescBy] at hpkg
  obtain ⟨p, hp, rfl⟩ := List.mem_map.mp hpkg
  refine ⟨(sumSizes p.2 : ℚ) / (sumSizes mods : ℚ) * 100, ?_, ?_, ?_⟩
  · simp [htot]
  · have h1 : (0 : ℚ) ≤ (sumSizes p.2 : ℚ) / (sumSizes mods : ℚ) :=
      div_nonneg (Nat.cast_nonneg _) (Nat.cast_nonneg _)
    nlinarith
  · have hle : sumSizes p.2 ≤ sumSizes mods := sumSizes_sublist (packageMap_sublist hp)
    have hpos : (0 : ℚ) < (sumSizes mods : ℚ) := by
      exact_mod_cast Nat.pos_of_ne_zero htot
    have hq : (sumSizes p.2 : ℚ) / (sumSizes mods : ℚ) ≤ 1 := by
      rw [div_le_one hpos]
      exact_mod_cast hle
    nlinarith

/-- Witness for C9 (amended): a one-module bundle attributed wholly to one
package carries a defined percentage in the bound. -/
theorem c9_witness :
    ∃ q : ℚ,
      (⟨strL "a", 10, some (((10 : Nat) : ℚ) / ((10 : Nat) : ℚ) * 100),
        [⟨0, strL "node_modules/a/x.js", 10⟩]⟩ :
        PackageInfo).percentage = some q ∧ 0 ≤ q ∧ q ≤ 100 :=
  c9_amended [⟨0, strL "node_modules/a/x.js", 10⟩] (by decide)
    ⟨strL "a", 10, some (((10 : Nat) : ℚ) / ((10 : Nat) : ℚ) * 100),
      [⟨0, strL "node_modules/a/x.js", 10⟩]⟩
    (by
      rw [show analyzePackages [⟨0, strL "node_modules/a/x.js", 10⟩] =
        [⟨strL "a", 10, some (((10 : Nat) : ℚ) / ((10 : Nat) : ℚ) * 100),
          [⟨0, strL "node_modules/a/x.js", 10⟩]⟩] from rfl]
      exact List.mem_singleton_self _)

/-! ### Claim C10: attribution to the outermost package. -/

theorem takeWhile_all_append {p : Char → Bool} {A : Str} {y : Char} {rest : Str}
    (hA : ∀ c ∈ A, p c = true) (hy : p y = false) :
    (A ++ y :: rest).takeWhile p = A := by
  induction A with
  | nil => simp [List.takeWhile_cons, hy]
  | cons a A2 ih =>
    have ha : p a = true := hA a (List.mem_cons_self _ _)
    simp only [List.cons_append, List.takeWhile_cons, ha, if_true]
    rw [ih (fun c hc => hA c (List.mem_cons_of_mem a hc))]

theorem isPrefixOf_append_self (pat t : Str) : pat.isPrefixOf (pat ++ t) = true :=
  List.isPrefixOf_iff_prefix.mpr ⟨t, rfl⟩

theorem extractPackageName_cons (c : Char) (rest : Str) :
    extractPackageName (c :: rest) =
      if (strL "node_modules/").isPrefixOf (c :: rest) then
        match captureAt ((c :: rest).drop 13) with
        | some cap => some cap
        | none => extractPackageName rest
      else extractPackageName rest := rfl

theorem extractPackageName_skip {pre l : Str}
    (h : ∀ i, i < pre.length →
      (strL "node_modules/").isPrefixOf ((pre ++ l).drop i) = false) :
    extractPackageName (pre ++ l) = extractPackageName l := by
  induction pre with
  | nil => rfl
  | cons c pre2 ih =>
    rw [List.cons_append, extractPackageName_cons]
    have h0 : (strL "node_modules/").isPrefixOf (c :: (pre2 ++ l)) = false := by
      have := h 0 (by simp)
      simpa using this
    rw [h0]
    simp only [Bool.false_eq_true, if_false]
    exact ih (fun i hi => by
      have := h (i + 1) (by simpa using Nat.succ_lt_succ hi)
      simpa using this)

theorem captureAt_unscoped {A rest : Str} (hne : A ≠ [])
    (hs : ∀ c ∈ A, c ≠ '/') (hat : A.head? ≠ some '@') :
    captureAt (A ++ '/' :: rest) = some A := by
  have hA : ∀ c ∈ A, (fun x => decide (x ≠ '/')) c = true := by
    intro c hc
    simpa using hs c hc
  have htw : (A ++ '/' :: rest).takeWhile (fun x => decide (x ≠ '/')) = A :=
    takeWhile_all_append hA (by simp)
  unfold captureAt
  rw [htw]
  rw [if_neg (by simpa using hne)]
  rw [if_neg ?hcond]
  case hcond =>
    intro hcon
    apply hat
    obtain ⟨a, A2, rfl⟩ : ∃ a A2, A = a :: A2 := by
      cases A with
      | nil => exact absurd rfl hne
      | cons a A2 => exact ⟨a, A2, rfl⟩
    have : a = '@' := by simpa using hcon.2
    simp [this]

theorem extractPackageName_at_marker {A rest : Str} (hne : A ≠ [])
    (hs : ∀ c ∈ A, c ≠ '/') (hat : A.head? ≠ some '@') :
    extractPackageName (strL "node_modules/" ++ (A ++ '/' :: rest)) = some A := by
  have hshape : strL "node_modules/" ++ (A ++ '/' :: rest) =
      'n' :: (strL "ode_modules/" ++ (A ++ '/' :: rest)) := rfl
  rw [hshape, extractPackageName_cons, ← hshape,
    isPrefixOf_append_self (strL "node_modules/") (A ++ '/' :: rest)]
  have hdrop : (strL "node_modules/" ++ (A ++ '/' :: rest)).drop 13 = A ++ '/' :: rest := by
    have h13 : (13 : Nat) = (strL "node_modules/").length := by decide
    rw [hshape, ← hshape, h13, List.drop_left]
  simp only [if_true]
  rw [hdrop, captureAt_unscoped hne hs hat]

theorem captureAt_scoped {sc nm2 rest : Str} (hsc : sc ≠ []) (hnm : nm2 ≠ [])
    (hs1 : ∀ c ∈ sc, c ≠ '/') (hs2 : ∀ c ∈ nm2, c ≠ '/') :
    captureAt ('@' :: sc ++ '/' :: (nm2 ++ '/' :: rest)) =
      some ('@' :: sc ++ '/' :: nm2) := by
  have hA : ∀ c ∈ '@' :: sc, (fun x => decide (x ≠ '/')) c = true := by
    intro c hc
    rcases List.mem_cons.mp hc with hc | hc
    · simp [hc]
    · simpa using hs1 c hc
  have htw : (('@' :: sc) ++ '/' :: (nm2 ++ '/' :: rest)).takeWhile
      (fun x => decide (x ≠ '/')) = '@' :: sc :=
    takeWhile_all_append hA (by simp)
  have hB : ∀ c ∈ nm2, (fun x => decide (x ≠ '/')) c = true := by
    intro c hc
    simpa using hs2 c hc
  have htw2 : (nm2 ++ '/' :: rest).takeWhile (fun x => decide (x ≠ '/')) = nm2 :=
    takeWhile_all_append hB (by simp)
  unfold captureAt
  simp only [List.cons_append] at htw ⊢
  rw [htw]
  rw [if_neg (by simp)]
  rw [if_pos ?hpos]
  case hpos =>
    refine ⟨by simpa using Nat.succ_le_succ (Nat.one_le_iff_ne_zero.mpr (by simpa using hsc)), rfl⟩
  have hdrop : ('@' :: (sc ++ '/' :: (nm2 ++ '/' :: rest))).drop ('@' :: sc).length =
      '/' :: (nm2 ++ '/' :: rest) := by
    have : ('@' :: sc).length = sc.length + 1 := by simp
    rw [this]
    simp only [List.drop_succ_cons]
    have : sc.length = sc.length + 0 := rfl
    rw [show (sc ++ '/' :: (nm2 ++ '/' :: rest)).drop sc.length =
      '/' :: (nm2 ++ '/' :: rest) from by
        have := List.drop_left sc ('/' :: (nm2 ++ '/' :: rest))
        exact this]
  rw [hdrop]
  obtain ⟨n0, nm2tl, rfl⟩ : ∃ a t, nm2 = a :: t := by
    cases nm2 with
    | nil => exact absurd rfl hnm
    | cons a t => exact ⟨a, t, rfl⟩
  have hn0 : ¬(n0 = '/') := by simpa using hs2 n0 (List.mem_cons_self _ _)
  have htw2n : List.takeWhile (fun x => !decide (x = '/')) ((n0 :: nm2tl) ++ '/' :: rest)
      = n0 :: nm2tl := by simpa using htw2
  have htw3 : List.takeWhile (fun x => !decide (x = '/')) (nm2tl ++ '/' :: rest) = nm2tl := by
    rw [List.cons_append, List.takeWhile_cons] at htw2n
    simpa [hn0] using htw2n
  simp [htw3, hn0]

theorem addToGroups_key {name : Str} {mm : ModuleData}
    (hm : extractPackageName mm.path = some name) :
    ∀ acc : List (Str × List ModuleData),
      (∀ q ∈ acc, ∀ m ∈ q.2, extractPackageName m.path = some q.1) →
      ∀ q ∈ addToGroups acc name mm,
        ∀ m ∈ q.2, extractPackageName m.path = some q.1 := by
  intro acc
  induction acc with
  | nil =>
    intro _ q hq m hmem
    simp only [addToGroups, List.mem_singleton] at hq
    subst hq
    simp only [List.mem_singleton] at hmem
    subst hmem
    exact hm
  | cons kg rest ih =>
    obtain ⟨k, g⟩ := kg
    intro hacc q hq
    rw [addToGroups] at hq
    by_cases hk : k = name
    · rw [if_pos hk] at hq
      rcases List.mem_cons.mp hq with hq | hq
      · subst hq
        intro m hmem
        rcases List.mem_append.mp hmem with hmem | hmem
        · exact hacc (k, g) (List.mem_cons_self _ _) m hmem
        · simp only [List.mem_singleton] at hmem
          subst hmem
          rw [hm, hk]
      · exact hacc q (List.mem_cons_of_mem _ hq)
    · rw [if_neg hk] at hq
      rcases List.mem_cons.mp hq with hq | hq
      · subst hq
        exact hacc (k, g) (List.mem_cons_self _ _)
      · exact ih (fun r hr => hacc r (List.mem_cons_of_mem _ hr)) q hq

theorem packageMap_key_aux :
    ∀ (mods : List ModuleData) (acc : List (Str × List ModuleData)),
      (∀ q ∈ acc, ∀ m ∈ q.2, extractPackageName m.path = some q.1) →
      ∀ q ∈ mods.foldl (fun acc m =>
          match extractPackageName m.path with
          | some name => addToGroups acc name m
          | none => acc) acc,
        ∀ m ∈ q.2, extractPackageName m.path = some q.1 := by
  intro mods
  induction mods with
  | nil => intro acc hacc q hq; exact hacc q hq
  | cons m rest ih =>
    intro acc hacc q hq
    rw [List.foldl_cons] at hq
    refine ih _ ?_ q hq
    cases hx : extractPackageName m.path with
    | some name => exact addToGroups_key hx acc hacc
    | none => exact hacc

theorem packageMap_key (mods : List ModuleData) (q : Str × List ModuleData)
    (hq : q ∈ packageMap mods) :
    ∀ m ∈ q.2, extractPackageName m.path = some q.1 :=
  packageMap_key_aux mods [] (by simp) q hq

/-- Claim C10: `extractPackageName` matches the first `node_modules/`
occurrence, so a nested path `node_modules/A/node_modules/B/…` is attributed
to the outer package `A` (scoped names joining as `@scope/name`), and every
package aggregate's member modules carry exactly that first-occurrence
package name. -/
theorem c10_outer_attribution :
    (∀ pre A rest : Str,
      (∀ i, i < pre.length →
        (strL "node_modules/").isPrefixOf
          ((pre ++ (strL "node_modules/" ++ (A ++ '/' :: rest))).drop i) = false) →
      A ≠ [] → (∀ c ∈ A, c ≠ '/') → A.head? ≠ some '@' →
      extractPackageName (pre ++ (strL "node_modules/" ++ (A ++ '/' :: rest))) =
        some A) ∧
    (∀ sc nm2 rest : Str, sc ≠ [] → nm2 ≠ [] →
      (∀ c ∈ sc, c ≠ '/') → (∀ c ∈ nm2, c ≠ '/') →
      extractPackageName
        (strL "node_modules/" ++ ('@' :: sc ++ '/' :: (nm2 ++ '/' :: rest))) =
        some ('@' :: sc ++ '/' :: nm2)) ∧
    (∀ (mods : List ModuleData) (p : PackageInfo), p ∈ analyzePackages mods →
      ∀ m ∈ p.modules, extractPackageName m.path = some p.name) := by
  refine ⟨?_, ?_, ?_⟩
  · intro pre A rest hpre hne hs hat
    rw [extractPackageName_skip hpre]
    exact extractPackageName_at_marker hne hs hat
  · intro sc nm2 rest hsc hnm hs1 hs2
    have hshape : strL "node_modules/" ++ ('@' :: sc ++ '/' :: (nm2 ++ '/' :: rest)) =
        'n' :: (strL "ode_modules/" ++ ('@' :: sc ++ '/' :: (nm2 ++ '/' :: rest))) := rfl
    rw [hshape, extractPackageName_cons, ← hshape,
      isPrefixOf_append_self (strL "node_modules/") _]
    have hdrop : (strL "node_modules/" ++
        ('@' :: sc ++ '/' :: (nm2 ++ '/' :: rest))).drop 13 =
        '@' :: sc ++ '/' :: (nm2 ++ '/' :: rest) := by
      have h13 : (13 : Nat) = (strL "node_modules/").length := by decide
      rw [h13, List.drop_left]
    simp only [if_true]
    rw [hdrop, captureAt_scoped hsc hnm hs1 hs2]
  · intro mods p hp m hm
    simp only [analyzePackages] at hp
    rw [mem_sortDescBy] at hp
    obtain ⟨q, hq, rfl⟩ := List.mem_map.mp hp
    exact packageMap_key mods q hq m hm

/-- Witness for C10 at a concrete nested path with a nonempty prefix:
`a/node_modules/axios/node_modules/b/x.js` is attributed to `axios`. -/
theorem c10_witness :
    extractPackageName
      (strL "a/" ++ (strL "node_modules/" ++
        (strL "axios" ++ '/' :: strL "node_modules/b/x.js"))) =
      some (strL "axios") :=
  (c10_outer_attribution).1 (strL "a/") (strL "axios") (strL "node_modules/b/x.js")
    (by decide) (by decide) (by decide) (by decide)

/-! ### Claim C4: duplicate package detection. -/

/-- Counterexample to claim C4 as stated: for the claim's own example — one
module at top-level `node_modules/axios/` and one nested under
`node_modules/other/node_modules/axios/` — no duplicate finding is produced
at all, because `extractPackageName` attributes the nested module to the
outer package `other`, so `axios` is never grouped at two locations. -/
theorem c4_counterexample :
    findDuplicates
      [⟨0, strL "node_modules/axios/index.js", 100⟩,
       ⟨1, strL "node_modules/other/node_modules/axios/index.js", 100⟩] = [] ∧
    extractPackageName (strL "node_modules/other/node_modules/axios/index.js") =
      some (strL "other") := by
  refine ⟨by decide, by decide⟩

/-- Claim C4 as amended: a duplicate finding for a package arises when the
package name is the component after the first `node_modules/` segment of
both module paths (so both modules are attributed to it) and the computed
install locations differ; then the finding lists exactly the two locations
and wastes half the package's total size. -/
theorem c4_amended (p1 p2 : Str) (s1 s2 i1 i2 : Nat) (pkg loc1 loc2 : Str)
    (h1 : extractPackageName p1 = some pkg)
    (h2 : extractPackageName p2 = some pkg)
    (hl1 : dupLocation pkg p1 = some loc1)
    (hl2 : dupLocation pkg p2 = some loc2)
    (hne : loc1 ≠ loc2)
    (hn1 : loc1 ≠ []) (ht1 : jsTrim loc1 ≠ [])
    (hn2 : loc2 ≠ []) (ht2 : jsTrim loc2 ≠ []) :
    findDuplicates [⟨i1, p1, s1⟩, ⟨i2, p2, s2⟩] =
      [⟨pkg, [loc1, loc2],
        ((sumSizes [⟨i1, p1, s1⟩, ⟨i2, p2, s2⟩] : Nat) : ℚ) /
          (((2 : Nat) : ℚ)) * (((2 : Nat) : ℚ) - 1),
        [loc1, loc2]⟩] ∧
    ((sumSizes [⟨i1, p1, s1⟩, ⟨i2, p2, s2⟩] : Nat) : ℚ) /
        (((2 : Nat) : ℚ)) * (((2 : Nat) : ℚ) - 1) =
      ((sumSizes [⟨i1, p1, s1⟩, ⟨i2, p2, s2⟩] : Nat) : ℚ) * (1 / 2) := by
  constructor
  · have hfold : ([⟨i1, p1, s1⟩, ⟨i2, p2, s2⟩] : List ModuleData).foldl dupStep [] =
        [(pkg, [loc1, loc2])] := by
      simp [dupStep, h1, h2, hl1, hl2, ensureKey, addLocTo, Ne.symm hne]
    simp only [findDuplicates, hfold]
    have hf1 : (loc1.length != 0 && (jsTrim loc1).length != 0) = true := by
      simp [List.length_eq_zero, hn1, ht1]
    have hf2 : (loc2.length != 0 && (jsTrim loc2).length != 0) = true := by
      simp [List.length_eq_zero, hn2, ht2]
    simp only [List.filterMap_cons, List.filterMap_nil, List.filter_cons,
      List.filter_nil, hf1, hf2, if_true]
    have hmods : ([⟨i1, p1, s1⟩, ⟨i2, p2, s2⟩] : List ModuleData).filter
        (fun m => extractPackageName m.path == some pkg) =
        [⟨i1, p1, s1⟩, ⟨i2, p2, s2⟩] := by
      simp [List.filter_cons, h1, h2]
    simp [hmods, h1, h2, sortDescBy, insertDesc]
  · push_cast
    ring

/-- Witness for C4 (amended) at the concrete pair of a top-level and a
differently-prefixed install of `axios`. -/
theorem c4_witness :
    findDuplicates
      [⟨0, strL "node_modules/axios/index.js", 100⟩,
       ⟨1, strL "packages/app/node_modules/axios/index.js", 50⟩] =
      [⟨strL "axios", [strL "node_modules/axios", strL "packages/app/node_modules/axios"],
        ((sumSizes [⟨0, strL "node_modules/axios/index.js", 100⟩,
            ⟨1, strL "packages/app/node_modules/axios/index.js", 50⟩] : Nat) : ℚ) /
          (((2 : Nat) : ℚ)) * (((2 : Nat) : ℚ) - 1),
        [strL "node_modules/axios", strL "packages/app/node_modules/axios"]⟩] ∧
    ((sumSizes [⟨0, strL "node_modules/axios/index.js", 100⟩,
        ⟨1, strL "packages/app/node_modules/axios/index.js", 50⟩] : Nat) : ℚ) /
        (((2 : Nat) : ℚ)) * (((2 : Nat) : ℚ) - 1) =
      ((sumSizes [⟨0, strL "node_modules/axios/index.js", 100⟩,
          ⟨1, strL "packages/app/node_modules/axios/index.js", 50⟩] : Nat) : ℚ) * (1 / 2) :=
  c4_amended (strL "node_modules/axios/index.js")
    (strL "packages/app/node_modules/axios/index.js") 100 50 0 1
    (strL "axios") (strL "node_modules/axios") (strL "packages/app/node_modules/axios")
    (by decide) (by decide) (by decide) (by decide) (by decide)
    (by decide) (by decide) (by decide) (by decide)

/-! ### Claim C8: the body-span cap. -/

/-- Counterexample to claim C8 as stated: the cap is applied to the UTF-16
length, not to bytes.  A conforming segment whose tail is 3400 three-byte
euro signs triggers no unmatched closer, is capped at
`min(length, 10000) = 3415` characters, and yields a record of 10215 bytes,
exceeding the claimed 10,000-byte bound. -/
theorem c8_counterexample :
    findModuleEndAux (strL "function()\x7b\x7d,1," ++ List.replicate 3400 '€')
      none 0 scanInit = none ∧
    (parseOne none 0 (strL "function()\x7b\x7d,1," ++ List.replicate 3400 '€')).map
      (fun m => m.size) = some 10215 ∧
    10000 < 10215 := by
  have hscan : findModuleEndAux (strL "function()\x7b\x7d,1," ++ List.replicate 3400 '€')
      none 0 scanInit = none := by
    rw [findModuleEndAux_append]
    have hpre : findModuleEndAux (strL "function()\x7b\x7d,1,") none 0 scanInit = none := by
      decide
    have hend2 : scanEnd (strL "function()\x7b\x7d,1,") none scanInit =
        (some ',', ⟨0, false, ' '⟩) := by decide
    rw [hpre, hend2]
    exact findModuleEndAux_neutral
      (fun c hc => by rcases List.mem_replicate.mp hc with ⟨-, rfl⟩; decide)
      (some ',') (0 + (strL "function()\x7b\x7d,1,").length) 0 ' ' (le_refl 0)
  have hlen : (strL "function()\x7b\x7d,1," ++ List.replicate 3400 '€').length = 3415 := by
    rw [List.length_append, List.length_replicate]
    decide
  have hend : findModuleEnd (strL "function()\x7b\x7d,1," ++ List.replicate 3400 '€') = 3415 := by
    simp only [findModuleEnd, hscan, hlen]
    decide
  have htake : (strL "function()\x7b\x7d,1," ++ List.replicate 3400 '€').take 3415 =
      strL "function()\x7b\x7d,1," ++ List.replicate 3400 '€' :=
    List.take_of_length_le (le_of_eq hlen)
  have hsize : utf8Len (strL "function()\x7b\x7d,1," ++ List.replicate 3400 '€') = 10215 := by
    rw [utf8Len_append, utf8Len_replicate]
    decide
  have hmatch : matchHead (strL "function()\x7b\x7d,1," ++ List.replicate 3400 '€') =
      some ([], 1) := rfl
  refine ⟨hscan, ?_, by decide⟩
  simp only [parseOne, hmatch, getModulePathFromSourcemap, orElseStr, hend, htake, hsize,
    Option.map_some]
  rfl

/-- Claim C8 as amended: when the scan finds no unmatched closer, the span is
capped at `min(length, 10000)` characters (UTF-16 code units), so the
captured span has at most 10,000 characters; its UTF-8 byte size is what the
record stores and may exceed 10,000. -/
theorem c8_amended (part : Str)
    (h : findModuleEndAux part none 0 scanInit = none) :
    findModuleEnd part = min part.length 10000 ∧
    (part.take (findModuleEnd part)).length ≤ 10000 := by
  have h1 : findModuleEnd part = min part.length 10000 := by
    simp [findModuleEnd, h]
  refine ⟨h1, ?_⟩
  rw [h1, List.length_take]
  omega

/-- Witness for C8 (amended) at a two-character closer-free segment. -/
theorem c8_witness :
    findModuleEnd (strL "ab") = min (strL "ab").length 10000 ∧
    ((strL "ab").take (findModuleEnd (strL "ab"))).length ≤ 10000 :=
  c8_amended (strL "ab") (by decide)

/-- Witness for C6 (amended) at a concrete sources-less map and module
segment. -/
theorem c6_witness :
    loadSourcemap (strL "m") none =
      .error (strL "Failed to load sourcemap: " ++ strL "m") ∧
    isLoaded (some (⟨none⟩ : SourceMapData)) = true ∧
    (∀ idx, getModulePath (some (⟨none⟩ : SourceMapData)) idx = none) ∧
    (∀ chunk part body id, matchHead part = some (body, id) →
      parseOne (some (some (⟨none⟩ : SourceMapData))) chunk part =
        some ⟨id, extractModulePath body id, utf8Len (part.take (findModuleEnd part))⟩) :=
  c6_amended (strL "m") ⟨none⟩ rfl

end BundleInsights
